import Mathlib

/-!
A verification development for the movie catalog program
(`movies.py` together with `movie_storage/movies_storage_sql.py`).

The persisted table of movies is modelled as a list of `MovieRecord`s.
Strings are modelled as lists of characters, Python floats (ratings,
SQLite `REAL`) as rationals, years (SQLite `INTEGER`) as integers.
The external metadata provider (the OMDb HTTP call) is modelled by its
three-outcome result, and a possible failure of an SQL statement by an
explicit `fault` argument (`none` = the statement executes normally,
`some e` = the underlying call raises with detail `e`, in which case the
transaction is never committed and the table is unchanged).
-/

namespace MovieDB

/-- Python strings, modelled as lists of characters. -/
abbrev Str := List Char

/-- A row of the `movies` table:
`title TEXT UNIQUE NOT NULL, year INTEGER NOT NULL, rating REAL NOT NULL,
poster TEXT NOT NULL` (the surrogate `id` key is not observable through any
of the modelled operations and is omitted). -/
structure MovieRecord where
  title  : Str
  year   : Int
  rating : Rat
  poster : Str
  deriving DecidableEq

/-- A snapshot entry `(title, year, rating)` as built by the query layer of
`movies.py` from the `get_movies()` dictionary. -/
abbrev Entry := Str × Int × Rat

/-- `get_movies()`: `SELECT title, year, rating FROM movies`, returned as the
title-keyed dictionary; modelled as the list of `(title, year, rating)`
projections in storage order (Python dictionaries preserve insertion order,
and titles are unique in the table). -/
def get_movies (st : List MovieRecord) : List Entry :=
  st.map fun r => (r.title, r.year, r.rating)

/-- The three-outcome result of the metadata provider lookup
(`requests.get` on the OMDb URL followed by the status / `Response`
checks in `add_movie`). -/
inductive ProviderResult where
  | connectionError : ProviderResult
  | notFound : ProviderResult
  | found (canonicalTitle : Str) (year : Int) (rating : Rat) (poster : Str) :
      ProviderResult

/-- The tagged outcome dictionary returned by `add_movie` (its `"reason"`
field, together with the data each branch carries). -/
inductive AddResult where
  | apiConnection (title : Str) : AddResult
  | notFound (title : Str) : AddResult
  | duplicate (title : Str) : AddResult
  | added (title : Str) (year : Int) (rating : Rat) (poster : Str) : AddResult
  | databaseError (error : Str) : AddResult
  deriving DecidableEq

/-- `add_movie(title)` of `movies_storage_sql.py`.  The provider call is the
`pres` argument; `fault` models whether the `INSERT` statement raises.
The duplicate check is `parsed["Title"] in existing_movies`, i.e. membership
of the provider's canonical title among the keys of the `get_movies()`
snapshot.  On a raising `INSERT` the `except` branch returns the
`database_error` outcome and no commit happens, so the table is unchanged. -/
def add_movie (title : Str) (pres : ProviderResult) (st : List MovieRecord)
    (fault : Option Str) : AddResult × List MovieRecord :=
  match pres with
  | .connectionError => (.apiConnection title, st)
  | .notFound => (.notFound title, st)
  | .found c y r p =>
    if (get_movies st).any (fun e => decide (e.1 = c)) then
      (.duplicate c, st)
    else
      match fault with
      | some e => (.databaseError e, st)
      | none => (.added c y r p, st ++ [⟨c, y, r, p⟩])

/-- `delete_movie(title)`: `DELETE FROM movies WHERE title = :title`, then
`return True`; any exception is caught and `False` returned (no commit, so
the table is unchanged).  The row count is never inspected. -/
def delete_movie (title : Str) (st : List MovieRecord) (fault : Option Unit) :
    Bool × List MovieRecord :=
  match fault with
  | some _ => (false, st)
  | none => (true, st.filter fun rec => decide (rec.title ≠ title))

/-- `update_movie(title, rating)`: `UPDATE movies SET rating = :rating WHERE
title = :title`, then `return True`; any exception is caught and `False`
returned (no commit, table unchanged).  The row count is never inspected. -/
def update_movie (title : Str) (rating : Rat) (st : List MovieRecord)
    (fault : Option Unit) : Bool × List MovieRecord :=
  match fault with
  | some _ => (false, st)
  | none =>
    (true, st.map fun rec =>
      if rec.title = title then ⟨rec.title, rec.year, rating, rec.poster⟩
      else rec)

/-- The duplicate check of `add_movie` holds exactly when some stored record
carries the canonical title. -/
lemma any_title_eq_iff (c : Str) (st : List MovieRecord) :
    ((get_movies st).any (fun e => decide (e.1 = c)) = true) ↔
      ∃ rec ∈ st, rec.title = c := by
  simp [get_movies, List.any_eq_true]

/-- C1: `add_movie` follows the specified algorithm: a provider transport
failure yields the provider-error outcome, a provider miss yields not-found
(both leaving the store unchanged); otherwise the provider's canonical title
`c` — not the caller's input `t` — is checked against the current snapshot:
if present, the duplicate outcome with no write; if absent, a clean insert
appends exactly the new record and yields the added outcome, while a failing
insert yields the store-error outcome with the underlying detail and leaves
the store unchanged. -/
theorem add_movie_spec (t c : Str) (y : Int) (r : Rat) (p : Str)
    (st : List MovieRecord) (fault : Option Str) (err : Str) :
    add_movie t .connectionError st fault = (.apiConnection t, st) ∧
    add_movie t .notFound st fault = (.notFound t, st) ∧
    ((∃ rec ∈ st, rec.title = c) →
      add_movie t (.found c y r p) st fault = (.duplicate c, st)) ∧
    ((¬ ∃ rec ∈ st, rec.title = c) →
      add_movie t (.found c y r p) st none
        = (.added c y r p, st ++ [⟨c, y, r, p⟩])) ∧
    ((¬ ∃ rec ∈ st, rec.title = c) →
      add_movie t (.found c y r p) st (some err)
        = (.databaseError err, st)) := by
  refine ⟨rfl, rfl, ?_, ?_, ?_⟩
  · intro h
    have hb : (get_movies st).any (fun e => decide (e.1 = c)) = true :=
      (any_title_eq_iff c st).mpr h
    simp [add_movie, hb]
  · intro h
    have hb : (get_movies st).any (fun e => decide (e.1 = c)) = false := by
      rw [← Bool.not_eq_true]
      exact fun hx => h ((any_title_eq_iff c st).mp hx)
    simp [add_movie, hb]
  · intro h
    have hb : (get_movies st).any (fun e => decide (e.1 = c)) = false := by
      rw [← Bool.not_eq_true]
      exact fun hx => h ((any_title_eq_iff c st).mp hx)
    simp [add_movie, hb]

/-- C1, checked on concrete inputs: each branch of `add_movie` at an explicit
store. -/
theorem add_movie_spec_witness :
    add_movie ['m'] .connectionError [] none = (.apiConnection ['m'], []) ∧
    add_movie ['m'] (.found ['M'] 1999 9 []) [] none
      = (.added ['M'] 1999 9 [], [⟨['M'], 1999, 9, []⟩]) ∧
    add_movie ['m'] (.found ['M'] 1999 9 []) [⟨['M'], 1999, 9, []⟩] none
      = (.duplicate ['M'], [⟨['M'], 1999, 9, []⟩]) ∧
    add_movie ['m'] (.found ['M'] 1999 9 []) [] (some ['e'])
      = (.databaseError ['e'], []) := by
  have h := add_movie_spec ['m'] ['M'] 1999 9 [] [] none ['e']
  have h' := add_movie_spec ['m'] ['M'] 1999 9 [] [⟨['M'], 1999, 9, []⟩] none ['e']
  refine ⟨h.1, h.2.2.2.1 (by simp), ?_, h.2.2.2.2 (by simp)⟩
  exact h'.2.2.1 ⟨⟨['M'], 1999, 9, []⟩, by simp, rfl⟩

/-- C2 fails on the code: `delete_movie` returns `True` whether or not a
record with the title existed — deleting from the empty store already
returns `True`, refuting "true iff a record with exactly that title existed
and was removed". -/
theorem delete_movie_true_iff_existed_false :
    ¬ ((delete_movie ['X'] [] none).1 = true ↔
        ∃ rec ∈ ([] : List MovieRecord), rec.title = ['X']) := by
  intro h
  have hex := h.mp rfl
  simp at hex

/-- C2, amended: `delete_movie` and `update_movie` return `true` whenever the
underlying statement executes without a store fault, regardless of whether a
matching record existed, and `false` exactly on a store fault; when the title
is absent the catalog is unchanged; `delete_movie` removes every record with
exactly the given title and keeps the rest in order. -/
theorem delete_update_return_spec (t : Str) (r : Rat) (st : List MovieRecord) :
    (delete_movie t st none).1 = true ∧
    (update_movie t r st none).1 = true ∧
    (delete_movie t st (some ())).1 = false ∧
    (update_movie t r st (some ())).1 = false ∧
    ((∀ rec ∈ st, rec.title ≠ t) →
      (delete_movie t st none).2 = st ∧ (update_movie t r st none).2 = st) ∧
    (∀ rec ∈ (delete_movie t st none).2, rec.title ≠ t) ∧
    (delete_movie t st none).2.Sublist st := by
  refine ⟨rfl, rfl, rfl, rfl, ?_, ?_, ?_⟩
  · intro habs
    constructor
    · simp only [delete_movie]
      exact List.filter_eq_self.mpr fun rec hrec => by
        simpa using habs rec hrec
    · simp only [update_movie]
      conv_rhs => rw [← List.map_id st]
      exact List.map_congr_left fun rec hrec => by
        rw [if_neg (habs rec hrec)]
        rfl
  · intro rec hrec
    have := List.of_mem_filter hrec
    simpa using this
  · exact List.filter_sublist st

/-- C2 (amended), checked on a concrete store: deleting an absent title
returns `true` and leaves the store unchanged. -/
theorem delete_update_return_spec_witness :
    (delete_movie ['B'] [⟨['A'], 2000, 5, []⟩] none).1 = true ∧
    (delete_movie ['B'] [⟨['A'], 2000, 5, []⟩] none).2
      = [⟨['A'], 2000, 5, []⟩] := by
  have h := delete_update_return_spec ['B'] 5 [⟨['A'], 2000, 5, []⟩]
  exact ⟨h.1, (h.2.2.2.2.1 (by decide)).1⟩

/-- C9: `update_movie` is a frame-preserving rating write: the store keeps
its length, every record whose title differs from the given title is
unchanged (same position, same fields), and a record whose title matches
keeps its title, year and poster and gets exactly the new rating. -/
theorem update_movie_frame (t : Str) (r : Rat) (st : List MovieRecord) :
    (update_movie t r st none).2.length = st.length ∧
    ∀ (i : Nat) (q : MovieRecord), st[i]? = some q →
      (q.title ≠ t → (update_movie t r st none).2[i]? = some q) ∧
      (q.title = t →
        (update_movie t r st none).2[i]?
          = some ⟨q.title, q.year, r, q.poster⟩) := by
  constructor
  · simp [update_movie]
  · intro i q hq
    constructor
    · intro hne
      simp only [update_movie, List.getElem?_map, hq, Option.map_some']
      rw [if_neg hne]
    · intro heq
      simp only [update_movie, List.getElem?_map, hq, Option.map_some']
      rw [if_pos heq]

/-- C9, checked on a concrete store: the non-matching record is untouched and
the matching record changes only its rating. -/
theorem update_movie_frame_witness :
    (update_movie ['B'] 7 [⟨['A'], 2000, 5, []⟩, ⟨['B'], 2010, 6, []⟩]
        none).2[0]? = some ⟨['A'], 2000, 5, []⟩ ∧
    (update_movie ['B'] 7 [⟨['A'], 2000, 5, []⟩, ⟨['B'], 2010, 6, []⟩]
        none).2[1]? = some ⟨['B'], 2010, 7, []⟩ := by
  have h := update_movie_frame ['B'] 7
    [⟨['A'], 2000, 5, []⟩, ⟨['B'], 2010, 6, []⟩]
  exact ⟨(h.2 0 ⟨['A'], 2000, 5, []⟩ rfl).1 (by decide),
    (h.2 1 ⟨['B'], 2010, 6, []⟩ rfl).2 rfl⟩

/-- Python `str.lower()` on a modelled string. -/
def lowerStr (s : Str) : Str := s.map Char.toLower

/-- `needle` occurs at the start of `hay` (the anchored part of the Python
substring test `needle in hay`). -/
def startsWith : Str → Str → Bool
  | [], _ => true
  | _ :: _, [] => false
  | a :: as, b :: bs => decide (a = b) && startsWith as bs

/-- Python substring containment `needle in hay`: some offset of `hay`
begins with `needle` (the empty needle is contained in everything). -/
def strContains (hay needle : Str) : Bool :=
  (List.range (hay.length + 1)).any fun i => startsWith needle (hay.drop i)

/-- `search_for_movie_in_dict`, the match loop: keep, in snapshot order, the
entries whose lowercased title contains the lowercased request.  (The
surrounding function formats the hits, and when none match returns a
"couldn't find" message line — presentation on top of the empty list.) -/
def search_for_movie_in_dict (s : List Entry) (req : Str) : List Entry :=
  s.filter fun e => strContains (lowerStr e.1) (lowerStr req)

lemma startsWith_iff : ∀ needle hay : Str,
    startsWith needle hay = true ↔ ∃ t, hay = needle ++ t := by
  intro needle
  induction needle with
  | nil => intro hay; simp [startsWith]
  | cons a as ih =>
    intro hay
    cases hay with
    | nil => simp [startsWith]
    | cons b bs =>
      simp only [startsWith, Bool.and_eq_true, decide_eq_true_eq, ih bs,
        List.cons_append, List.cons.injEq]
      constructor
      · rintro ⟨rfl, t, rfl⟩
        exact ⟨t, rfl, rfl⟩
      · rintro ⟨t, rfl, rfl⟩
        exact ⟨rfl, t, rfl⟩

lemma strContains_iff (hay needle : Str) :
    strContains hay needle = true ↔ ∃ pre post, hay = pre ++ needle ++ post := by
  unfold strContains
  rw [List.any_eq_true]
  constructor
  · rintro ⟨i, -, hs⟩
    obtain ⟨t, ht⟩ := (startsWith_iff needle (hay.drop i)).mp hs
    exact ⟨hay.take i, t, by rw [List.append_assoc, ← ht, List.take_append_drop]⟩
  · rintro ⟨pre, post, rfl⟩
    refine ⟨pre.length, ?_, ?_⟩
    · rw [List.mem_range]
      simp only [List.append_assoc, List.length_append]
      omega
    · rw [List.append_assoc, List.drop_left]
      exact (startsWith_iff needle (needle ++ post)).mpr ⟨post, rfl⟩

/-- C8: `search_for_movie_in_dict` returns exactly the entries whose
lowercased title contains the lowercased request as a contiguous substring
(membership characterisation), preserves snapshot order (the result is a
sublist of the snapshot), is empty precisely when nothing matches, and on
the concrete catalog {Matrix, Batman, Up} the request "at" matches Matrix
and Batman but not Up. -/
theorem search_spec :
    (∀ (s : List Entry) (req : Str) (e : Entry),
      e ∈ search_for_movie_in_dict s req ↔
        e ∈ s ∧ ∃ pre post, lowerStr e.1 = pre ++ lowerStr req ++ post) ∧
    (∀ (s : List Entry) (req : Str),
      (search_for_movie_in_dict s req).Sublist s) ∧
    (∀ (s : List Entry) (req : Str),
      search_for_movie_in_dict s req = [] ↔
        ∀ e ∈ s, ¬ ∃ pre post, lowerStr e.1 = pre ++ lowerStr req ++ post) ∧
    search_for_movie_in_dict
        [(['M', 'a', 't', 'r', 'i', 'x'], 1999, 9),
         (['B', 'a', 't', 'm', 'a', 'n'], 1989, 7),
         (['U', 'p'], 2009, 8)] ['a', 't']
      = [(['M', 'a', 't', 'r', 'i', 'x'], 1999, 9),
         (['B', 'a', 't', 'm', 'a', 'n'], 1989, 7)] := by
  refine ⟨?_, ?_, ?_, by decide⟩
  · intro s req e
    rw [search_for_movie_in_dict, List.mem_filter, strContains_iff]
  · intro s req
    exact List.filter_sublist s
  · intro s req
    rw [search_for_movie_in_dict, List.filter_eq_nil_iff]
    constructor
    · intro h e he
      have := h e he
      rwa [strContains_iff] at this
    · intro h e he
      rw [strContains_iff]
      exact h e he

/-- C10: searching with the empty substring is the identity on the snapshot:
every entry is kept, in snapshot order. -/
theorem search_empty_substring (s : List Entry) :
    search_for_movie_in_dict s [] = s := by
  refine List.filter_eq_self.mpr fun e _ => ?_
  rw [strContains_iff]
  exact ⟨[], lowerStr e.1, by simp [lowerStr]⟩

/-- The running sum of `calc_rating_average`. -/
def sumRatings (s : List Entry) : Rat := s.foldl (fun acc e => acc + e.2.2) 0

/-- `calc_rating_average`: `sum_ratings / len(movies)`; on the empty snapshot
the division raises `ZeroDivisionError`, modelled as `none`.  (The f-string
rounds the value for display; the numeric value is what is modelled.) -/
def calc_rating_average (s : List Entry) : Option Rat :=
  if s.length = 0 then none else some (sumRatings s / s.length)

/-- `calc_rating_median`: sort the ratings ascending (`sorted`) and index at
`len(sorted_rating_lst) // 2`; indexing the empty list raises `IndexError`,
modelled as `none`. -/
def calc_rating_median (s : List Entry) : Option Rat :=
  let sortedRatings := List.insertionSort (· ≤ ·) (s.map fun e => e.2.2)
  sortedRatings[sortedRatings.length / 2]?

/-- `return_best_movie`: `max(...)` over the ratings (a `ValueError` on the
empty snapshot, modelled as `none`), then the comprehension keeping, in
snapshot order, every entry whose rating equals that maximum. -/
def return_best_movie (s : List Entry) : Option (List Entry) :=
  match s with
  | [] => none
  | e :: rest =>
    let m := rest.foldl (fun acc x => max acc x.2.2) e.2.2
    some ((e :: rest).filter fun x => decide (x.2.2 = m))

/-- `return_worst_movie`: as `return_best_movie` with `min`. -/
def return_worst_movie (s : List Entry) : Option (List Entry) :=
  match s with
  | [] => none
  | e :: rest =>
    let m := rest.foldl (fun acc x => min acc x.2.2) e.2.2
    some ((e :: rest).filter fun x => decide (x.2.2 = m))

/-- The outcome of `calc_stats_for_all_movies`: the four statistics, the
"Database is empty" report of the `except ZeroDivisionError` branch, or the
generic `except Exception` report. -/
inductive StatsResult where
  | ok (average median : Rat) (best worst : List Entry) : StatsResult
  | emptyCatalog : StatsResult
  | unexpected : StatsResult
  deriving DecidableEq

/-- `calc_stats_for_all_movies`: the inner helpers run in order — average
first, so an empty snapshot raises `ZeroDivisionError` there, is caught by
the dedicated handler and reported as the empty-catalog condition; a failure
of a later helper would fall to the generic `except Exception` branch. -/
def calc_stats_for_all_movies (s : List Entry) : StatsResult :=
  match calc_rating_average s with
  | none => .emptyCatalog
  | some avg =>
    match calc_rating_median s, return_best_movie s, return_worst_movie s with
    | some med, some b, some w => .ok avg med b w
    | _, _, _ => .unexpected

/-- The outcome of `return_random_movie`: a movie line, or the explicit
"Database is empty" report of the emptiness check (`if not movies`). -/
inductive RandomResult where
  | ok (title : Str) (rating : Rat) : RandomResult
  | emptyCatalog : RandomResult
  | indexFault : RandomResult
  deriving DecidableEq

/-- `return_random_movie`: an explicit emptiness check reports the empty
catalog before any random draw; otherwise `randrange(len)` picks an index
(modelled by `k % len`, always in range on a non-empty list). -/
def return_random_movie (s : List Entry) (k : Nat) : RandomResult :=
  if s.isEmpty then .emptyCatalog
  else
    match s[k % s.length]? with
    | some e => .ok e.1 e.2.2
    | none => .indexFault

/-- C6: on the empty snapshot the statistics (average and median are computed
inside `calc_stats_for_all_movies`, whose first step divides by zero and is
caught) and the random pick each return the structured empty-catalog
outcome — no unhandled fault. -/
theorem empty_snapshot_reported :
    calc_stats_for_all_movies [] = StatsResult.emptyCatalog ∧
    calc_rating_average [] = none ∧
    (∀ k : Nat, return_random_movie [] k = RandomResult.emptyCatalog) := by
  exact ⟨rfl, rfl, fun _ => rfl⟩

lemma le_foldl_max (l : List Entry) :
    ∀ a : Rat, a ≤ l.foldl (fun acc x => max acc x.2.2) a := by
  induction l with
  | nil => intro a; exact le_refl a
  | cons x xs ih =>
    intro a
    rw [List.foldl_cons]
    exact le_trans (le_max_left a x.2.2) (ih (max a x.2.2))

lemma mem_le_foldl_max (l : List Entry) :
    ∀ a : Rat, ∀ x ∈ l, x.2.2 ≤ l.foldl (fun acc x => max acc x.2.2) a := by
  induction l with
  | nil => intro a x hx; cases hx
  | cons y ys ih =>
    intro a x hx
    rw [List.foldl_cons]
    rcases List.mem_cons.mp hx with rfl | hx'
    · exact le_trans (le_max_right a x.2.2) (le_foldl_max ys (max a x.2.2))
    · exact ih (max a y.2.2) x hx'

lemma foldl_max_attained (l : List Entry) :
    ∀ a : Rat, l.foldl (fun acc x => max acc x.2.2) a = a ∨
      ∃ x ∈ l, l.foldl (fun acc x => max acc x.2.2) a = x.2.2 := by
  induction l with
  | nil => intro a; exact Or.inl rfl
  | cons y ys ih =>
    intro a
    rw [List.foldl_cons]
    rcases ih (max a y.2.2) with h | ⟨x, hx, heq⟩
    · rcases max_choice a y.2.2 with hm | hm
      · exact Or.inl (h.trans hm)
      · exact Or.inr ⟨y, List.mem_cons_self y ys, h.trans hm⟩
    · exact Or.inr ⟨x, List.mem_cons_of_mem y hx, heq⟩

lemma foldl_min_le (l : List Entry) :
    ∀ a : Rat, l.foldl (fun acc x => min acc x.2.2) a ≤ a := by
  induction l with
  | nil => intro a; exact le_refl a
  | cons x xs ih =>
    intro a
    rw [List.foldl_cons]
    exact le_trans (ih (min a x.2.2)) (min_le_left a x.2.2)

lemma foldl_min_le_mem (l : List Entry) :
    ∀ a : Rat, ∀ x ∈ l, l.foldl (fun acc x => min acc x.2.2) a ≤ x.2.2 := by
  induction l with
  | nil => intro a x hx; cases hx
  | cons y ys ih =>
    intro a x hx
    rw [List.foldl_cons]
    rcases List.mem_cons.mp hx with rfl | hx'
    · exact le_trans (foldl_min_le ys (min a x.2.2)) (min_le_right a x.2.2)
    · exact ih (min a y.2.2) x hx'

lemma foldl_min_attained (l : List Entry) :
    ∀ a : Rat, l.foldl (fun acc x => min acc x.2.2) a = a ∨
      ∃ x ∈ l, l.foldl (fun acc x => min acc x.2.2) a = x.2.2 := by
  induction l with
  | nil => intro a; exact Or.inl rfl
  | cons y ys ih =>
    intro a
    rw [List.foldl_cons]
    rcases ih (min a y.2.2) with h | ⟨x, hx, heq⟩
    · rcases min_choice a y.2.2 with hm | hm
      · exact Or.inl (h.trans hm)
      · exact Or.inr ⟨y, List.mem_cons_self y ys, h.trans hm⟩
    · exact Or.inr ⟨x, List.mem_cons_of_mem y hx, heq⟩

/-- C7: on a non-empty snapshot, `return_best_movie` and
`return_worst_movie` return the (non-empty) filters keeping, in snapshot
order, exactly the entries whose rating equals the true maximum,
respectively the true minimum, of the snapshot's ratings. -/
theorem best_worst_spec (s : List Entry) (h : s ≠ []) :
    ∃ M m : Rat, ∃ bl wl : List Entry,
      return_best_movie s = some bl ∧ return_worst_movie s = some wl ∧
      bl = s.filter (fun x => decide (x.2.2 = M)) ∧
      wl = s.filter (fun x => decide (x.2.2 = m)) ∧
      bl ≠ [] ∧ wl ≠ [] ∧
      (∀ x ∈ s, x.2.2 ≤ M) ∧ (∃ x ∈ s, x.2.2 = M) ∧
      (∀ x ∈ s, m ≤ x.2.2) ∧ (∃ x ∈ s, x.2.2 = m) := by
  cases s with
  | nil => exact absurd rfl h
  | cons e rest =>
    refine ⟨rest.foldl (fun acc x => max acc x.2.2) e.2.2,
      rest.foldl (fun acc x => min acc x.2.2) e.2.2,
      (e :: rest).filter
        (fun x => decide (x.2.2 = rest.foldl (fun acc x => max acc x.2.2) e.2.2)),
      (e :: rest).filter
        (fun x => decide (x.2.2 = rest.foldl (fun acc x => min acc x.2.2) e.2.2)),
      ?_, ?_, ?_, ?_, ?_, ?_, ?_, ?_, ?_, ?_⟩
    · rfl
    · rfl
    · rfl
    · rfl
    · obtain ⟨x, hx, hxe⟩ : ∃ x ∈ e :: rest,
          x.2.2 = rest.foldl (fun acc x => max acc x.2.2) e.2.2 := by
        rcases foldl_max_attained rest e.2.2 with hm | ⟨x, hx, hm⟩
        · exact ⟨e, List.mem_cons_self e rest, hm.symm⟩
        · exact ⟨x, List.mem_cons_of_mem e hx, hm.symm⟩
      exact List.ne_nil_of_mem (List.mem_filter.mpr ⟨hx, by simp [hxe]⟩)
    · obtain ⟨x, hx, hxe⟩ : ∃ x ∈ e :: rest,
          x.2.2 = rest.foldl (fun acc x => min acc x.2.2) e.2.2 := by
        rcases foldl_min_attained rest e.2.2 with hm | ⟨x, hx, hm⟩
        · exact ⟨e, List.mem_cons_self e rest, hm.symm⟩
        · exact ⟨x, List.mem_cons_of_mem e hx, hm.symm⟩
      exact List.ne_nil_of_mem (List.mem_filter.mpr ⟨hx, by simp [hxe]⟩)
    · intro x hx
      rcases List.mem_cons.mp hx with rfl | hx'
      · exact le_foldl_max rest x.2.2
      · exact mem_le_foldl_max rest e.2.2 x hx'
    · rcases foldl_max_attained rest e.2.2 with hm | ⟨x, hx, hm⟩
      · exact ⟨e, List.mem_cons_self e rest, hm.symm⟩
      · exact ⟨x, List.mem_cons_of_mem e hx, hm.symm⟩
    · intro x hx
      rcases List.mem_cons.mp hx with rfl | hx'
      · exact foldl_min_le rest x.2.2
      · exact foldl_min_le_mem rest e.2.2 x hx'
    · rcases foldl_min_attained rest e.2.2 with hm | ⟨x, hx, hm⟩
      · exact ⟨e, List.mem_cons_self e rest, hm.symm⟩
      · exact ⟨x, List.mem_cons_of_mem e hx, hm.symm⟩

/-- C7, checked on a concrete snapshot with a tie at the top: both best
entries come back, in snapshot order, and the single worst entry too. -/
theorem best_worst_spec_witness :
    (∃ M m : Rat, ∃ bl wl : List Entry,
      return_best_movie [(['A'], 2000, 5), (['B'], 2010, 9), (['C'], 2010, 9)]
          = some bl ∧
      return_worst_movie [(['A'], 2000, 5), (['B'], 2010, 9), (['C'], 2010, 9)]
          = some wl ∧
      bl = [(['A'], 2000, 5), (['B'], 2010, 9),
        (['C'], 2010, 9)].filter (fun x => decide (x.2.2 = M)) ∧
      wl = [(['A'], 2000, 5), (['B'], 2010, 9),
        (['C'], 2010, 9)].filter (fun x => decide (x.2.2 = m)) ∧
      bl ≠ [] ∧ wl ≠ [] ∧
      (∀ x ∈ ([(['A'], 2000, 5), (['B'], 2010, 9), (['C'], 2010, 9)] :
          List Entry), x.2.2 ≤ M) ∧
      (∃ x ∈ ([(['A'], 2000, 5), (['B'], 2010, 9), (['C'], 2010, 9)] :
          List Entry), x.2.2 = M) ∧
      (∀ x ∈ ([(['A'], 2000, 5), (['B'], 2010, 9), (['C'], 2010, 9)] :
          List Entry), m ≤ x.2.2) ∧
      (∃ x ∈ ([(['A'], 2000, 5), (['B'], 2010, 9), (['C'], 2010, 9)] :
          List Entry), x.2.2 = m)) ∧
    return_best_movie [(['A'], 2000, 5), (['B'], 2010, 9), (['C'], 2010, 9)]
        = some [(['B'], 2010, 9), (['C'], 2010, 9)] ∧
    return_worst_movie [(['A'], 2000, 5), (['B'], 2010, 9), (['C'], 2010, 9)]
        = some [(['A'], 2000, 5)] :=
  ⟨best_worst_spec [(['A'], 2000, 5), (['B'], 2010, 9), (['C'], 2010, 9)]
    (by simp), by decide, by decide⟩

/-- C5: on a non-empty snapshot, `calc_rating_median` returns the element at
index `n / 2` of the ascending-sorted list of the snapshot's ratings — for
any ascending-sorted permutation `l` of the ratings (such a list is unique),
the result is `l[n / 2]`, which exists. -/
theorem median_spec (s : List Entry) (l : List Rat) (hne : s ≠ [])
    (hperm : l.Perm (s.map fun e => e.2.2)) (hsort : l.Sorted (· ≤ ·)) :
    calc_rating_median s = l[s.length / 2]? ∧ (l[s.length / 2]?).isSome := by
  have hins : List.insertionSort (· ≤ ·) (s.map fun e => e.2.2) = l :=
    List.eq_of_perm_of_sorted ((List.perm_insertionSort _ _).trans hperm.symm)
      (List.sorted_insertionSort _ _) hsort
  have hlen : l.length = s.length := by
    rw [hperm.length_eq, List.length_map]
  have hlt : s.length / 2 < l.length := by
    rw [hlen]
    exact Nat.div_lt_self (List.length_pos.mpr hne) one_lt_two
  constructor
  · simp only [calc_rating_median, hins, hlen]
  · rw [List.getElem?_eq_getElem hlt]
    rfl

/-- C5, checked on the spec's scenario: ratings {5, 9, 9} sort to
[5, 9, 9], and the median is the element at index 3 / 2 = 1, i.e. 9 —
not the average of the two middles. -/
theorem median_spec_witness :
    calc_rating_median [(['A'], 2000, 5), (['B'], 2010, 9), (['C'], 2010, 9)]
      = some 9 := by
  have h := median_spec
    [(['A'], 2000, 5), (['B'], 2010, 9), (['C'], 2010, 9)]
    [5, 9, 9] (by simp) (by decide) (by decide)
  simpa using h.1

/-- The inner `for` scan shared by the two manual sorts: fold over the
remaining entries, adopting an entry as the new best exactly when its key
strictly exceeds the running best (initially `z` — `0.0` for ratings,
`0` for years — with no entry selected). -/
def findBestAux {α : Type} [LinearOrder α] (key : Entry → α) :
    α → Option Entry → List Entry → α × Option Entry
  | best, bm, [] => (best, bm)
  | best, bm, m :: rest =>
    if best < key m then findBestAux key (key m) (some m) rest
    else findBestAux key best bm rest

/-- Python `list.remove(x)`: drop the first element equal to `x`. -/
def removeFirst (b : Entry) : List Entry → List Entry
  | [] => []
  | x :: xs => if x = b then xs else x :: removeFirst b xs

/-- The `while` loop of the manual sorts: scan the pool for the best
remaining entry; when one is found, append it to the output and remove it
from the pool.  When the scan selects nothing (every key ≤ `z`), the Python
loop repeats with unchanged state and never terminates — modelled as
`none`.  `fuel` bounds the iterations; a terminating run removes one entry
per iteration, so `l.length` fuel is exact. -/
def selectionSortLoop {α : Type} [LinearOrder α] (key : Entry → α) (z : α) :
    Nat → List Entry → List Entry → Option (List Entry)
  | _, [], acc => some acc
  | 0, _ :: _, _ => none
  | fuel + 1, m :: rest, acc =>
    match (findBestAux key z none (m :: rest)).2 with
    | none => none
    | some b =>
      selectionSortLoop key z fuel (removeFirst b (m :: rest)) (acc ++ [b])

/-- `sort_movies_by_rating`: the manual selection sort on the rating key,
scanning from `best_rating = 0.0`. -/
def sort_movies_by_rating (s : List Entry) : Option (List Entry) :=
  selectionSortLoop (fun e => e.2.2) 0 s.length s []

/-- The direction the user picks in `sort_movies_by_year` (`'old'` = oldest
first, `'young'` = youngest first). -/
inductive YearOrder where
  | oldestFirst : YearOrder
  | youngestFirst : YearOrder

/-- `sort_movies_by_year`: the same manual selection sort on the year key,
scanning from `youngest_year = 0`, which yields the youngest-first
(descending) list; the oldest-first answer is `reversed(sorted_lst)`. -/
def sort_movies_by_year (dir : YearOrder) (s : List Entry) :
    Option (List Entry) :=
  match dir with
  | .youngestFirst => selectionSortLoop (fun e => e.2.1) 0 s.length s []
  | .oldestFirst =>
    (selectionSortLoop (fun e => e.2.1) 0 s.length s []).map List.reverse

/-- What the selection scan computes: either nothing was adopted (and then
every key is at most the initial best), or the result is the first entry
whose key is maximal — everything before it has a strictly smaller key,
everything after it a key no larger. -/
lemma findBestAux_spec {α : Type} [LinearOrder α] (key : Entry → α) :
    ∀ (l : List Entry) (best : α) (bm : Option Entry),
      (findBestAux key best bm l = (best, bm) ∧ ∀ x ∈ l, key x ≤ best) ∨
      (∃ b p₁ p₂, (findBestAux key best bm l).2 = some b ∧
        (findBestAux key best bm l).1 = key b ∧
        l = p₁ ++ b :: p₂ ∧ (∀ x ∈ p₁, key x < key b) ∧ best < key b ∧
        (∀ x ∈ p₂, key x ≤ key b)) := by
  intro l
  induction l with
  | nil =>
    intro best bm
    exact Or.inl ⟨rfl, fun x hx => absurd hx (List.not_mem_nil x)⟩
  | cons m rest ih =>
    intro best bm
    by_cases hlt : best < key m
    · simp only [findBestAux, if_pos hlt]
      rcases ih (key m) (some m) with ⟨heq, hle⟩ |
        ⟨b, p₁, p₂, h2, h1, hdecomp, hp₁, hb, hp₂⟩
      · refine Or.inr ⟨m, [], rest, ?_, ?_, rfl, ?_, hlt, hle⟩
        · rw [heq]
        · rw [heq]
        · intro x hx; cases hx
      · refine Or.inr ⟨b, m :: p₁, p₂, h2, h1, by rw [hdecomp, List.cons_append], ?_,
          lt_trans hlt hb, hp₂⟩
        intro x hx
        rcases List.mem_cons.mp hx with rfl | hx'
        · exact hb
        · exact hp₁ x hx'
    · have hle : key m ≤ best := le_of_not_lt hlt
      simp only [findBestAux, if_neg hlt]
      rcases ih best bm with ⟨heq, hrest⟩ |
        ⟨b, p₁, p₂, h2, h1, hdecomp, hp₁, hb, hp₂⟩
      · refine Or.inl ⟨heq, ?_⟩
        intro x hx
        rcases List.mem_cons.mp hx with rfl | hx'
        · exact hle
        · exact hrest x hx'
      · refine Or.inr ⟨b, m :: p₁, p₂, h2, h1, by rw [hdecomp, List.cons_append], ?_, hb, hp₂⟩
        intro x hx
        rcases List.mem_cons.mp hx with rfl | hx'
        · exact lt_of_le_of_lt hle hb
        · exact hp₁ x hx'

lemma removeFirst_append_cons (b : Entry) :
    ∀ p₁ p₂ : List Entry, (∀ x ∈ p₁, x ≠ b) →
      removeFirst b (p₁ ++ b :: p₂) = p₁ ++ p₂ := by
  intro p₁
  induction p₁ with
  | nil => intro p₂ _; simp [removeFirst]
  | cons y ys ih =>
    intro p₂ h
    have hy : y ≠ b := h y (List.mem_cons_self y ys)
    simp only [List.cons_append, removeFirst, if_neg hy, List.append_eq]
    rw [ih p₂ fun x hx => h x (List.mem_cons_of_mem y hx)]

/-- The loop terminates on pools whose keys all exceed `z` and produces a
permutation of the pool, sorted by non-increasing key, in which the entries
of any fixed key keep their pool order (the filter at every key value is
unchanged). -/
lemma selectionSortLoop_spec {α : Type} [LinearOrder α] (key : Entry → α)
    (z : α) :
    ∀ (fuel : Nat) (l acc : List Entry), l.length ≤ fuel →
      (∀ x ∈ l, z < key x) →
      ∃ r, selectionSortLoop key z fuel l acc = some (acc ++ r) ∧
        r.Perm l ∧ List.Pairwise (fun a b => key b ≤ key a) r ∧
        ∀ q : α, r.filter (fun x => decide (key x = q))
          = l.filter (fun x => decide (key x = q)) := by
  intro fuel
  induction fuel with
  | zero =>
    intro l acc hlen _
    have hnil : l = [] := List.eq_nil_of_length_eq_zero (Nat.le_zero.mp hlen)
    subst hnil
    exact ⟨[], by simp [selectionSortLoop], List.Perm.nil, List.Pairwise.nil,
      fun q => rfl⟩
  | succ fuel ih =>
    intro l acc hlen hpos
    cases l with
    | nil =>
      exact ⟨[], by simp [selectionSortLoop], List.Perm.nil, List.Pairwise.nil,
        fun q => rfl⟩
    | cons m rest =>
      rcases findBestAux_spec key (m :: rest) z none with ⟨-, hall⟩ |
        ⟨b, p₁, p₂, h2, -, hdecomp, hp₁, -, hp₂⟩
      · exact absurd (hall m (List.mem_cons_self m rest))
          (not_le.mpr (hpos m (List.mem_cons_self m rest)))
      · have hrm : removeFirst b (m :: rest) = p₁ ++ p₂ := by
          rw [hdecomp]
          refine removeFirst_append_cons b p₁ p₂ fun x hx heq => ?_
          have hxb := hp₁ x hx
          rw [heq] at hxb
          exact lt_irrefl (key b) hxb
        have hlen' : (p₁ ++ p₂).length ≤ fuel := by
          have hl := congrArg List.length hdecomp
          simp only [List.length_cons, List.length_append] at hl hlen ⊢
          omega
        have hpos' : ∀ x ∈ p₁ ++ p₂, z < key x := by
          intro x hx
          refine hpos x ?_
          rw [hdecomp]
          rcases List.mem_append.mp hx with hx' | hx'
          · exact List.mem_append_left _ hx'
          · exact List.mem_append_right _ (List.mem_cons_of_mem b hx')
        obtain ⟨r', hloop, hperm, hpw, hfil⟩ := ih (p₁ ++ p₂) (acc ++ [b])
          hlen' hpos'
        refine ⟨b :: r', ?_, ?_, ?_, ?_⟩
        · have hstep : selectionSortLoop key z (fuel + 1) (m :: rest) acc
              = selectionSortLoop key z fuel (removeFirst b (m :: rest))
                  (acc ++ [b]) := by
            simp only [selectionSortLoop, h2]
          rw [hstep, hrm, hloop, List.append_assoc]
          rfl
        · rw [hdecomp]
          exact (hperm.cons b).trans List.perm_middle.symm
        · refine List.pairwise_cons.mpr ⟨?_, hpw⟩
          intro x hx
          rcases List.mem_append.mp (hperm.subset hx) with hx' | hx'
          · exact le_of_lt (hp₁ x hx')
          · exact hp₂ x hx'
        · intro q
          rw [hdecomp, List.filter_append]
          by_cases hq : key b = q
          · have hp₁nil : p₁.filter (fun x => decide (key x = q)) = [] := by
              rw [List.filter_eq_nil_iff]
              intro x hx
              simp only [decide_eq_true_eq]
              intro hxq
              have hxb := hp₁ x hx
              rw [hxq, hq] at hxb
              exact lt_irrefl q hxb
            simp [List.filter_cons, hq, hfil q, List.filter_append, hp₁nil]
          · simp [List.filter_cons, hq, hfil q, List.filter_append]

/-- C3, amended: on every snapshot all of whose ratings are strictly
positive, the manual descending sort terminates and returns a permutation
of the snapshot (in particular of equal length), every adjacent pair is
non-increasing in rating, and the entries of any fixed rating keep their
snapshot order (stability).  On a snapshot containing a rating ≤ 0 the scan
selects nothing and the loop never terminates (see the counterexample). -/
theorem sort_by_rating_spec (s : List Entry)
    (hpos : ∀ e ∈ s, (0 : Rat) < e.2.2) :
    ∃ r, sort_movies_by_rating s = some r ∧
      r.Perm s ∧ r.length = s.length ∧
      List.Chain' (fun a b => b.2.2 ≤ a.2.2) r ∧
      ∀ q : Rat, r.filter (fun x => decide (x.2.2 = q))
        = s.filter (fun x => decide (x.2.2 = q)) := by
  obtain ⟨r, hloop, hperm, hpw, hfil⟩ :=
    selectionSortLoop_spec (fun e => e.2.2) 0 s.length s [] (le_refl _) hpos
  exact ⟨r, by simpa [sort_movies_by_rating] using hloop, hperm,
    hperm.length_eq, hpw.chain', hfil⟩

/-- C3, checked on a concrete snapshot with a rating tie: the sort
terminates, orders ratings descending and keeps the tied entries in
snapshot order. -/
theorem sort_by_rating_spec_witness :
    sort_movies_by_rating
        [(['A'], 2000, 5), (['B'], 2010, 9), (['C'], 2010, 9)]
      = some [(['B'], 2010, 9), (['C'], 2010, 9), (['A'], 2000, 5)] := by
  obtain ⟨r, hr, -⟩ := sort_by_rating_spec
    [(['A'], 2000, 5), (['B'], 2010, 9), (['C'], 2010, 9)] (by decide)
  have : sort_movies_by_rating
      [(['A'], 2000, 5), (['B'], 2010, 9), (['C'], 2010, 9)]
      = some [(['B'], 2010, 9), (['C'], 2010, 9), (['A'], 2000, 5)] := by decide
  exact this

/-- C3 fails as stated for arbitrary snapshots: on a snapshot holding a
rating of 0 the scan (`best_rating = 0.0`, strict `>`) adopts no entry, the
`while` loop never terminates (modelled as `none`), and no sorted
permutation is returned. -/
theorem sort_by_rating_diverges :
    sort_movies_by_rating [(['A'], 2000, 0)] = none ∧
    ¬ ∃ r, sort_movies_by_rating [(['A'], 2000, 0)] = some r ∧
        r.Perm [(['A'], 2000, 0)] := by
  have h1 : sort_movies_by_rating [(['A'], 2000, 0)] = none := rfl
  refine ⟨h1, ?_⟩
  rintro ⟨r, hr, -⟩
  rw [h1] at hr
  exact Option.noConfusion hr

/-- C4, amended: on every snapshot all of whose years are strictly
positive, the youngest-first direction returns the years sorted descending
with equal-year entries in snapshot order (first-seen-first), and the
oldest-first direction returns exactly the reverse of that list — years
ascending, but equal-year entries in reverse snapshot order.  (As claimed,
first-seen-first ties hold for the descending direction only; see the
counterexample.  A year ≤ 0 would make the loop spin forever.) -/
theorem sort_by_year_spec (s : List Entry)
    (hpos : ∀ e ∈ s, (0 : Int) < e.2.1) :
    ∃ r, sort_movies_by_year .youngestFirst s = some r ∧
      sort_movies_by_year .oldestFirst s = some r.reverse ∧
      r.Perm s ∧ r.reverse.Perm s ∧
      List.Chain' (fun a b => b.2.1 ≤ a.2.1) r ∧
      List.Chain' (fun a b => a.2.1 ≤ b.2.1) r.reverse ∧
      ∀ q : Int, r.filter (fun x => decide (x.2.1 = q))
        = s.filter (fun x => decide (x.2.1 = q)) := by
  obtain ⟨r, hloop, hperm, hpw, hfil⟩ :=
    selectionSortLoop_spec (fun e => e.2.1) 0 s.length s [] (le_refl _) hpos
  have hy : sort_movies_by_year .youngestFirst s = some r := by
    simpa [sort_movies_by_year] using hloop
  refine ⟨r, hy, ?_, hperm, r.reverse_perm.trans hperm, hpw.chain', ?_, hfil⟩
  · rw [sort_movies_by_year]
    have : selectionSortLoop (fun e => e.2.1) 0 s.length s [] = some r := by
      simpa using hloop
    rw [this, Option.map_some']
  · exact List.chain'_reverse.mpr hpw.chain'

/-- C4, checked on a concrete snapshot with distinct years: descending and
ascending outputs are each sorted in the requested direction. -/
theorem sort_by_year_spec_witness :
    sort_movies_by_year .youngestFirst
        [(['A'], 2000, 5), (['B'], 2010, 9)]
      = some [(['B'], 2010, 9), (['A'], 2000, 5)] ∧
    sort_movies_by_year .oldestFirst
        [(['A'], 2000, 5), (['B'], 2010, 9)]
      = some [(['A'], 2000, 5), (['B'], 2010, 9)] := by
  obtain ⟨r, hy, ho, -⟩ := sort_by_year_spec
    [(['A'], 2000, 5), (['B'], 2010, 9)] (by decide)
  constructor
  · decide
  · decide

/-- C4 fails as stated: with the snapshot [A (2010), B (2010)] the
oldest-first (ascending) direction returns [B, A] — the equal-year entries
come back in reverse snapshot order, not first-seen-first — and a snapshot
with year 0 makes the loop spin forever (no result at all). -/
theorem sort_by_year_ascending_ties_reversed :
    sort_movies_by_year .oldestFirst [(['A'], 2010, 5), (['B'], 2010, 6)]
      = some [(['B'], 2010, 6), (['A'], 2010, 5)] ∧
    ([(['B'], 2010, 6), (['A'], 2010, 5)] : List Entry).filter
        (fun x => decide (x.2.1 = 2010))
      ≠ ([(['A'], 2010, 5), (['B'], 2010, 6)] : List Entry).filter
        (fun x => decide (x.2.1 = 2010)) ∧
    sort_movies_by_year .youngestFirst [(['C'], 0, 5)] = none := by
  exact ⟨rfl, by decide, rfl⟩

end MovieDB
